import Mathlib

/-!
Verification development for the Stock-Analyst-Pro valuation pipeline
(src/streamlit_app.py).  Numbers are modelled as exact rationals; the
result of a failed pandas numeric coercion (NaN) is modelled as `none`.
-/

namespace StockAnalyst

/-- A calendar date: the year together with an ordinal for the position of
the date inside its year (month and day collapsed into one number; a larger
ordinal means later in the year). -/
structure Date where
  year : Nat
  inYear : Nat
deriving DecidableEq, Repr

/-- One record of the `annualEarnings` list of the EARNINGS payload.
`reportedEPS` is the result of `pd.to_numeric(..., errors='coerce')` on the
raw field: `none` models NaN, i.e. a coercion failure. -/
structure EarningsRecord where
  fiscalDateEnding : Date
  reportedEPS : Option ℚ
deriving DecidableEq, Repr

/-- The EARNINGS payload; `annualEarnings = none` models a payload that
lacks the `annualEarnings` top-level key (e.g. the empty dict). -/
structure EarningsPayload where
  annualEarnings : Option (List EarningsRecord)
deriving DecidableEq, Repr

/-- One observation of the Monthly Adjusted Time Series, in the order the
payload lists its date keys; `adjustedClose` is the coerced
`5. adjusted close` field (`none` models NaN). -/
structure PriceObs where
  date : Date
  adjustedClose : Option ℚ
deriving DecidableEq, Repr

/-- The TIME_SERIES_MONTHLY_ADJUSTED payload; `monthlySeries = none` models
a payload lacking the `Monthly Adjusted Time Series` top-level key. -/
structure PricePayload where
  monthlySeries : Option (List PriceObs)
deriving DecidableEq, Repr

/-- A row of `eps_df` after `dropna()`: the truncated year, the original
period-end date, and the (numeric) reported EPS. -/
structure EpsRow where
  year : Nat
  fiscalDateEnding : Date
  reportedEPS : ℚ
deriving DecidableEq, Repr

/-- A row of `price_df` after `groupby('Year').last()[['Year','adjusted_close']]`.
`adjustedClose = none` models the NaN that remains when every close of the
year failed coercion. -/
structure PriceRow where
  year : Nat
  adjustedClose : Option ℚ
deriving DecidableEq, Repr

/-- A row of `merged_df` (lines 55-58): the inner join of `eps_df` and
`price_df` on `Year` plus the `pe_ratio` column. -/
structure MergedRow where
  year : Nat
  fiscalDateEnding : Date
  reportedEPS : ℚ
  adjustedClose : Option ℚ
  peRatio : Option ℚ
deriving DecidableEq, Repr

/-- A row after line 120 adds the `fair_value` column. -/
structure FullRow extends MergedRow where
  fair_value : ℚ
deriving DecidableEq, Repr

/-- Ordering of EPS rows by the `Year` key, as used by `sort_values('Year')`. -/
def epsRowLe (a b : EpsRow) : Prop := a.year ≤ b.year

instance : DecidableRel epsRowLe := fun a b => Nat.decLe a.year b.year

instance : IsTotal EpsRow epsRowLe := ⟨fun a b => Nat.le_total a.year b.year⟩

instance : IsTrans EpsRow epsRowLe := ⟨fun _ _ _ h h2 => Nat.le_trans h h2⟩

/-- Lines 42-44: one raw earnings record becomes an `eps_df` row when the
EPS coercion produced a number; a NaN row is removed by `dropna()`. -/
def toEpsRow (r : EarningsRecord) : Option EpsRow :=
  r.reportedEPS.map (fun e => ⟨r.fiscalDateEnding.year, r.fiscalDateEnding, e⟩)

/-- Lines 42-45: build `eps_df`, drop NaN rows, `sort_values('Year')`. -/
def normalizeEps (rs : List EarningsRecord) : List EpsRow :=
  List.insertionSort epsRowLe (rs.filterMap toEpsRow)

/-- Line 52, group keys: `groupby('Year')` with the default `sort=True`
emits one group per distinct year, in ascending year order. -/
def priceYears (obs : List PriceObs) : List Nat :=
  List.insertionSort (· ≤ ·) ((obs.map (fun o => o.date.year)).dedup)

/-- Line 52, group aggregation: `.last()` takes, within each year, the last
non-null adjusted close in the order the payload listed its dates. -/
def lastClose (obs : List PriceObs) (y : Nat) : Option ℚ :=
  ((obs.filter (fun o => o.date.year = y)).filterMap (fun o => o.adjustedClose)).getLast?

/-- Lines 48-52: build `price_df` and reduce it to one row per year. -/
def normalizePrices (obs : List PriceObs) : List PriceRow :=
  (priceYears obs).map (fun y => ⟨y, lastClose obs y⟩)

/-- Stated from the spec, for comparison with `lastClose`: the adjusted
close of the observation dated latest within the year. -/
def specLatestDatedClose (obs : List PriceObs) (y : Nat) : Option ℚ :=
  ((obs.filter (fun o => o.date.year = y)).argmax (fun o => o.date.inYear)).bind
    (fun o => o.adjustedClose)

/-- Lines 55-58, one joined row: the merge key, the columns carried over
from each side, and the `pe_ratio` column `adjusted_close / reportedEPS`
(a NaN close yields a NaN ratio). -/
def mergeRow (e : EpsRow) (p : PriceRow) : MergedRow :=
  ⟨e.year, e.fiscalDateEnding, e.reportedEPS, p.adjustedClose,
    p.adjustedClose.map (fun c => c / e.reportedEPS)⟩

/-- Line 55: `pd.merge(eps_df, price_df, on='Year', how='inner')`.  Rows
come out in left (EPS) row order; each EPS row is paired with every price
row sharing its year, in price order. -/
def innerMerge (eps : List EpsRow) (price : List PriceRow) : List MergedRow :=
  eps.flatMap (fun e => (price.filter (fun p => p.year = e.year)).map (mergeRow e))

/-- Lines 37-60, `prepare_fair_value_data`: an empty result when either
expected top-level key is missing, otherwise normalize both payloads, inner
join on year and add the realized P/E column. -/
def prepare_fair_value_data (earnings : EarningsPayload) (prices : PricePayload) :
    List MergedRow :=
  match earnings.annualEarnings, prices.monthlySeries with
  | some er, some ps => innerMerge (normalizeEps er) (normalizePrices ps)
  | _, _ => []

/-- Line 120: `fair_value_df['fair_value'] = fair_value_df['reportedEPS'] * avg_pe`. -/
def addFairValue (df : List MergedRow) (avgPe : ℚ) : List FullRow :=
  df.map (fun r => ⟨r, r.reportedEPS * avgPe⟩)

/-- Arithmetic mean of an all-numeric pandas Series. -/
def mean (l : List ℚ) : ℚ := l.sum / l.length

/-- The `df.tail(n)` of a column: the last `n` entries, or all entries when
fewer than `n` exist. -/
def tailRows (n : Nat) (l : List ℚ) : List ℚ := l.drop (l.length - n)

/-- Lines 105-110: the `Average of Last N Years` policy applied to the
`pe_ratio` column. -/
def lastNYearsPe (n : Nat) (pes : List ℚ) : ℚ := mean (tailRows n pes)

/-- A provider response as seen by `get_alpha_vantage_data`: whether the
rate-limit sentinel key `Note` is present, whether the `Error Message`
sentinel key is present, and the payload body itself. -/
structure RawResponse (α : Type) where
  hasNote : Bool
  hasErrorMessage : Bool
  body : α
deriving DecidableEq, Repr

/-- Lines 10-23, `get_alpha_vantage_data`: either sentinel key makes the
function return the empty dict instead of the body. -/
def get_alpha_vantage_data {α : Type} (empty : α) (resp : RawResponse α) : α :=
  if resp.hasNote then empty
  else if resp.hasErrorMessage then empty
  else resp.body

/-- The empty dict, viewed as an earnings payload: no `annualEarnings` key. -/
def emptyEarnings : EarningsPayload := ⟨none⟩

/-- The empty dict, viewed as a price payload: no time-series key. -/
def emptyPrices : PricePayload := ⟨none⟩

/-- What the app renders for a ticker (lines 92-150): the chart and table
when the merged frame is non-empty, otherwise the no-data warning. -/
inductive AppOutcome
  | chart (rows : List FullRow)
  | warnNoData
deriving DecidableEq, Repr

/-- Lines 92-150: branch on `fair_value_df.empty`; a non-empty frame gets
the fair-value column (line 120) and is charted, an empty one produces the
`Not enough data` warning. -/
def renderValuation (earnings : EarningsPayload) (prices : PricePayload)
    (avgPe : ℚ) : AppOutcome :=
  let df := prepare_fair_value_data earnings prices
  if df.isEmpty then AppOutcome.warnNoData else AppOutcome.chart (addFairValue df avgPe)

/-- Modelled from the spec: the DCF Engine of spec section 4.4 is absent
from the single source file under src/ (the repository's other prototype
variants are not provided), so its result record is taken from the spec's
DcfResult data model together with the explicit InvalidAssumption flag of
section 7. -/
structure DcfResult where
  intrinsic_value : ℚ
  projected_eps : List ℚ
  discount_factors : List ℚ
  terminal_value : ℚ
  invalid_assumption : Bool
deriving DecidableEq, Repr

/-- Modelled from the spec: the DCF Engine algorithm of spec section 4.4.
Projected EPS grows the latest EPS for `i = 1..horizon`; discount factors
come from the wacc; the terminal value uses the Gordon formula on the last
projected EPS; `wacc ≤ terminal_growth` or a non-positive latest EPS yields
the zero/empty result with the InvalidAssumption flag set. -/
def dcfEngine (latestEps wacc terminalGrowth epsGrowth : ℚ) (horizon : Nat) :
    DcfResult :=
  if wacc ≤ terminalGrowth ∨ latestEps ≤ 0 then
    ⟨0, [], [], 0, true⟩
  else
    let proj := (List.range horizon).map (fun i => latestEps * (1 + epsGrowth) ^ (i + 1))
    let disc := (List.range horizon).map (fun i => 1 / (1 + wacc) ^ (i + 1))
    let tv := latestEps * (1 + epsGrowth) ^ horizon * (1 + terminalGrowth)
      / (wacc - terminalGrowth)
    ⟨((List.range horizon).map
        (fun i => latestEps * (1 + epsGrowth) ^ (i + 1) * (1 / (1 + wacc) ^ (i + 1)))).sum
      + tv * (1 / (1 + wacc) ^ horizon),
     proj, disc, tv, false⟩

/-! Theorems -/

/-- Evaluation of the DCF engine at the section-8 example input. -/
theorem dcfEngine_example_eval :
    dcfEngine 10 (1/10) (3/100) (1/20) 5 =
      ⟨9381225/58564,
       [21/2, 441/40, 9261/800, 194481/16000, 4084101/320000],
       [10/11, 100/121, 1000/1331, 10000/14641, 100000/161051],
       60094629/320000, false⟩ := by
  have hc : ¬ ((1/10 : ℚ) ≤ 3/100 ∨ (10 : ℚ) ≤ 0) := by norm_num
  unfold dcfEngine
  rw [if_neg hc]
  norm_num [List.range_succ]

/-- C2: the DCF engine, for every latest EPS e > 0, wacc w, terminal growth
g < w, EPS growth r and horizon h, returns projected_eps[i] = e(1+r)^i and
discount_factor[i] = 1/(1+w)^i for i = 1..h, the Gordon terminal value, and
the discounted sum as intrinsic value; at e=10, w=0.10, g=0.03, r=0.05, h=5
it returns the section-8 vectors exactly and a positive intrinsic value. -/
theorem dcf_engine_correct (e w g r : ℚ) (h : ℕ) (he : 0 < e) (hg : g < w) :
    (dcfEngine e w g r h).invalid_assumption = false ∧
    (dcfEngine e w g r h).projected_eps.length = h ∧
    (dcfEngine e w g r h).discount_factors.length = h ∧
    (∀ i, i < h → (dcfEngine e w g r h).projected_eps[i]? = some (e * (1 + r) ^ (i + 1))) ∧
    (∀ i, i < h → (dcfEngine e w g r h).discount_factors[i]? = some (1 / (1 + w) ^ (i + 1))) ∧
    (dcfEngine e w g r h).terminal_value = e * (1 + r) ^ h * (1 + g) / (w - g) ∧
    (dcfEngine e w g r h).intrinsic_value =
      ((List.range h).map (fun i => e * (1 + r) ^ (i + 1) * (1 / (1 + w) ^ (i + 1)))).sum
        + (dcfEngine e w g r h).terminal_value * (1 / (1 + w) ^ h) ∧
    (dcfEngine 10 (1/10) (3/100) (1/20) 5).projected_eps
        = [21/2, 441/40, 9261/800, 194481/16000, 4084101/320000] ∧
    (dcfEngine 10 (1/10) (3/100) (1/20) 5).discount_factors
        = [10/11, 100/121, 1000/1331, 10000/14641, 100000/161051] ∧
    0 < (dcfEngine 10 (1/10) (3/100) (1/20) 5).intrinsic_value := by
  have hcond : ¬ (w ≤ g ∨ e ≤ 0) := by
    push_neg
    exact ⟨hg, he⟩
  have hdef : dcfEngine e w g r h =
      ⟨((List.range h).map
          (fun i => e * (1 + r) ^ (i + 1) * (1 / (1 + w) ^ (i + 1)))).sum
        + (e * (1 + r) ^ h * (1 + g) / (w - g)) * (1 / (1 + w) ^ h),
       (List.range h).map (fun i => e * (1 + r) ^ (i + 1)),
       (List.range h).map (fun i => 1 / (1 + w) ^ (i + 1)),
       e * (1 + r) ^ h * (1 + g) / (w - g), false⟩ := by
    unfold dcfEngine
    rw [if_neg hcond]
  refine ⟨by rw [hdef], by rw [hdef]; simp, by rw [hdef]; simp, ?_, ?_, by rw [hdef],
    by rw [hdef], by rw [dcfEngine_example_eval], by rw [dcfEngine_example_eval],
    by rw [dcfEngine_example_eval]; norm_num⟩
  · intro i hi
    rw [hdef]
    simp [List.getElem?_map, List.getElem?_range hi]
  · intro i hi
    rw [hdef]
    simp [List.getElem?_map, List.getElem?_range hi]

/-- Witness for C2 at latest EPS 10, wacc 0.10, terminal growth 0.03, EPS
growth 0.05, horizon 5. -/
theorem dcf_engine_correct_witness :
    (0 : ℚ) < 10 ∧ (3/100 : ℚ) < 1/10 ∧
    ((dcfEngine 10 (1/10) (3/100) (1/20) 5).invalid_assumption = false ∧
     (dcfEngine 10 (1/10) (3/100) (1/20) 5).projected_eps.length = 5 ∧
     (dcfEngine 10 (1/10) (3/100) (1/20) 5).discount_factors.length = 5 ∧
     (∀ i, i < 5 → (dcfEngine 10 (1/10) (3/100) (1/20) 5).projected_eps[i]?
        = some (10 * (1 + 1/20) ^ (i + 1))) ∧
     (∀ i, i < 5 → (dcfEngine 10 (1/10) (3/100) (1/20) 5).discount_factors[i]?
        = some (1 / (1 + 1/10) ^ (i + 1))) ∧
     (dcfEngine 10 (1/10) (3/100) (1/20) 5).terminal_value
        = 10 * (1 + 1/20) ^ 5 * (1 + 3/100) / (1/10 - 3/100) ∧
     (dcfEngine 10 (1/10) (3/100) (1/20) 5).intrinsic_value =
       ((List.range 5).map
          (fun i => 10 * (1 + 1/20) ^ (i + 1) * (1 / (1 + 1/10) ^ (i + 1)))).sum
         + (dcfEngine 10 (1/10) (3/100) (1/20) 5).terminal_value * (1 / (1 + 1/10) ^ 5) ∧
     (dcfEngine 10 (1/10) (3/100) (1/20) 5).projected_eps
        = [21/2, 441/40, 9261/800, 194481/16000, 4084101/320000] ∧
     (dcfEngine 10 (1/10) (3/100) (1/20) 5).discount_factors
        = [10/11, 100/121, 1000/1331, 10000/14641, 100000/161051] ∧
     0 < (dcfEngine 10 (1/10) (3/100) (1/20) 5).intrinsic_value) :=
  ⟨by norm_num, by norm_num,
   dcf_engine_correct 10 (1/10) (3/100) (1/20) 5 (by norm_num) (by norm_num)⟩

/-- C3: whenever wacc ≤ terminal growth, the DCF engine returns the
zero/empty result with the InvalidAssumption flag set, and in particular
never a negative intrinsic value presented as valid. -/
theorem dcf_invalid_assumption_flagged (e w g r : ℚ) (h : ℕ) (hwg : w ≤ g) :
    dcfEngine e w g r h = ⟨0, [], [], 0, true⟩ ∧
    (dcfEngine e w g r h).invalid_assumption = true ∧
    ¬ (dcfEngine e w g r h).intrinsic_value < 0 := by
  have hz : dcfEngine e w g r h = ⟨0, [], [], 0, true⟩ := by
    unfold dcfEngine
    rw [if_pos (Or.inl hwg)]
  exact ⟨hz, by rw [hz], by rw [hz]; norm_num⟩

/-- Witness for C3 at the section-8 instance wacc = 0.03, growth = 0.05. -/
theorem dcf_invalid_assumption_flagged_witness :
    (3/100 : ℚ) ≤ 5/100 ∧
    (dcfEngine 10 (3/100) (5/100) (1/20) 5 = ⟨0, [], [], 0, true⟩ ∧
     (dcfEngine 10 (3/100) (5/100) (1/20) 5).invalid_assumption = true ∧
     ¬ (dcfEngine 10 (3/100) (5/100) (1/20) 5).intrinsic_value < 0) :=
  ⟨by norm_num, dcf_invalid_assumption_flagged 10 (3/100) (5/100) (1/20) 5 (by norm_num)⟩

/-- C10: adding the fair-value column is a pure frame extension: the row
count is preserved, every pre-existing column of every row is unchanged,
and the only new data is fair_value = reportedEPS * avg_pe. -/
theorem add_fair_value_frame (df : List MergedRow) (pe : ℚ) :
    (addFairValue df pe).length = df.length ∧
    (addFairValue df pe).map (fun r => r.toMergedRow) = df ∧
    ∀ row ∈ addFairValue df pe, row.fair_value = row.toMergedRow.reportedEPS * pe := by
  refine ⟨by simp [addFairValue], ?_, ?_⟩
  · simp [addFairValue, List.map_map]
    exact List.map_id df
  · intro row hrow
    rcases List.mem_map.1 hrow with ⟨r, _, rfl⟩
    rfl

/-- C8: a payload missing its expected top-level key makes the normalizer
return the empty row set, and the app then shows the no-data warning
instead of charting. -/
theorem missing_key_yields_empty (e : EarningsPayload) (p : PricePayload) (pe : ℚ)
    (h : e.annualEarnings = none ∨ p.monthlySeries = none) :
    prepare_fair_value_data e p = [] ∧
    renderValuation e p pe = AppOutcome.warnNoData := by
  have hempty : prepare_fair_value_data e p = [] := by
    cases he : e.annualEarnings <;> cases hp : p.monthlySeries <;>
      simp_all [prepare_fair_value_data]
  exact ⟨hempty, by simp [renderValuation, hempty]⟩

/-- Witness for C8: an earnings payload without the annualEarnings key. -/
theorem missing_key_yields_empty_witness :
    (emptyEarnings.annualEarnings = none ∨
      (PricePayload.mk (some [])).monthlySeries = none) ∧
    (prepare_fair_value_data emptyEarnings (PricePayload.mk (some [])) = [] ∧
     renderValuation emptyEarnings (PricePayload.mk (some [])) 1 = AppOutcome.warnNoData) :=
  ⟨Or.inl rfl,
   missing_key_yields_empty emptyEarnings (PricePayload.mk (some [])) 1 (Or.inl rfl)⟩

/-- C9: a provider response carrying the rate-limit Note sentinel or the
Error Message sentinel is returned as the empty payload, so downstream
normalization yields the empty no-data result. -/
theorem sentinel_response_no_data (re : RawResponse EarningsPayload)
    (rp : RawResponse PricePayload)
    (he : re.hasNote = true ∨ re.hasErrorMessage = true)
    (hp : rp.hasNote = true ∨ rp.hasErrorMessage = true) :
    get_alpha_vantage_data emptyEarnings re = emptyEarnings ∧
    get_alpha_vantage_data emptyPrices rp = emptyPrices ∧
    (∀ p, prepare_fair_value_data (get_alpha_vantage_data emptyEarnings re) p = []) ∧
    (∀ e, prepare_fair_value_data e (get_alpha_vantage_data emptyPrices rp) = []) := by
  have h1 : get_alpha_vantage_data emptyEarnings re = emptyEarnings := by
    rcases he with h | h <;> cases hn : re.hasNote <;>
      simp_all [get_alpha_vantage_data]
  have h2 : get_alpha_vantage_data emptyPrices rp = emptyPrices := by
    rcases hp with h | h <;> cases hn : rp.hasNote <;>
      simp_all [get_alpha_vantage_data]
  refine ⟨h1, h2, ?_, ?_⟩
  · intro p
    rw [h1]
    cases hm : p.monthlySeries <;> simp [prepare_fair_value_data, emptyEarnings, hm]
  · intro e
    rw [h2]
    cases hm : e.annualEarnings <;> simp [prepare_fair_value_data, emptyPrices, hm]

/-- Witness for C9: a rate-limited earnings response and an error-message
price response. -/
theorem sentinel_response_no_data_witness :
    ((RawResponse.mk true false (EarningsPayload.mk (some []))).hasNote = true ∨
      (RawResponse.mk true false (EarningsPayload.mk (some []))).hasErrorMessage = true) ∧
    ((RawResponse.mk false true (PricePayload.mk (some []))).hasNote = true ∨
      (RawResponse.mk false true (PricePayload.mk (some []))).hasErrorMessage = true) ∧
    (get_alpha_vantage_data emptyEarnings
        (RawResponse.mk true false (EarningsPayload.mk (some []))) = emptyEarnings ∧
     get_alpha_vantage_data emptyPrices
        (RawResponse.mk false true (PricePayload.mk (some []))) = emptyPrices ∧
     (∀ p, prepare_fair_value_data
        (get_alpha_vantage_data emptyEarnings
          (RawResponse.mk true false (EarningsPayload.mk (some [])))) p = []) ∧
     (∀ e, prepare_fair_value_data e
        (get_alpha_vantage_data emptyPrices
          (RawResponse.mk false true (PricePayload.mk (some [])))) = [])) :=
  ⟨Or.inl rfl, Or.inr rfl,
   sentinel_response_no_data
     (RawResponse.mk true false (EarningsPayload.mk (some [])))
     (RawResponse.mk false true (PricePayload.mk (some [])))
     (Or.inl rfl) (Or.inr rfl)⟩

/-- C7: the Average of Last N Years policy takes the arithmetic mean of the
final N entries (the tail is a suffix of length min N len), and with fewer
than N entries it averages everything available, never over an empty list. -/
theorem last_n_years_policy (n : Nat) (pes : List ℚ)
    (hne : pes ≠ []) (hn : n = 3 ∨ n = 5 ∨ n = 10) :
    lastNYearsPe n pes = mean (tailRows n pes) ∧
    tailRows n pes <:+ pes ∧
    (tailRows n pes).length = min n pes.length ∧
    tailRows n pes ≠ [] ∧
    (pes.length ≤ n → tailRows n pes = pes ∧ lastNYearsPe n pes = mean pes) := by
  have hlen : (tailRows n pes).length = min n pes.length := by
    rw [tailRows, List.length_drop]
    omega
  have hpos : 0 < pes.length := List.length_pos.2 hne
  have hnpos : 0 < n := by rcases hn with h | h | h <;> omega
  refine ⟨rfl, List.drop_suffix _ _, hlen, ?_, ?_⟩
  · intro hnil
    have : (tailRows n pes).length = 0 := by rw [hnil]; rfl
    omega
  · intro hle
    have heq : tailRows n pes = pes := by
      rw [tailRows, Nat.sub_eq_zero_of_le hle, List.drop_zero]
    exact ⟨heq, by rw [lastNYearsPe, heq]⟩

/-- Witness for C7: N = 5 over a two-entry sequence degrades to the mean of
both entries. -/
theorem last_n_years_policy_witness :
    ([2, 4] : List ℚ) ≠ [] ∧ (5 = 3 ∨ 5 = 5 ∨ 5 = 10) ∧
    (lastNYearsPe 5 [2, 4] = mean (tailRows 5 [2, 4]) ∧
     tailRows 5 [2, 4] <:+ [2, 4] ∧
     (tailRows 5 [2, 4]).length = min 5 ([2, 4] : List ℚ).length ∧
     tailRows 5 [2, 4] ≠ [] ∧
     (([2, 4] : List ℚ).length ≤ 5 →
        tailRows 5 [2, 4] = [2, 4] ∧ lastNYearsPe 5 [2, 4] = mean [2, 4])) :=
  ⟨by decide, by decide, last_n_years_policy 5 [2, 4] (by decide) (by decide)⟩

/-- Helper: dropping NaN rows keeps exactly the records whose EPS coercion
succeeded. -/
theorem length_filterMap_toEpsRow (rs : List EarningsRecord) :
    (rs.filterMap toEpsRow).length
      = (rs.filter (fun r => r.reportedEPS.isSome)).length := by
  induction rs with
  | nil => rfl
  | cons r rs ih =>
    cases h : r.reportedEPS <;>
      simp [List.filterMap_cons, List.filter_cons, toEpsRow, h, ih]

/-- C4 counterexample: a record with reported EPS -1 (non-positive) is kept
by the normalizer, contradicting the claimed exclusion of non-positive EPS. -/
theorem normalizeEps_keeps_nonpositive_cex :
    normalizeEps [⟨⟨2020, 180⟩, some (-1)⟩] = [⟨2020, ⟨2020, 180⟩, -1⟩] ∧
    (-1 : ℚ) ≤ 0 := by
  constructor
  · rfl
  · norm_num

/-- C4 amended: the normalizer excludes exactly the records whose EPS
coercion failed; every record with a numeric EPS — non-positive included —
contributes a row. -/
theorem normalizeEps_excludes_nonnumeric (rs : List EarningsRecord) :
    (normalizeEps rs).Perm (rs.filterMap toEpsRow) ∧
    (∀ row ∈ normalizeEps rs, ∃ src ∈ rs,
        src.reportedEPS = some row.reportedEPS ∧
        row.year = src.fiscalDateEnding.year) ∧
    (∀ src ∈ rs, ∀ v, src.reportedEPS = some v →
        ∃ row ∈ normalizeEps rs,
          row.reportedEPS = v ∧ row.year = src.fiscalDateEnding.year) ∧
    (normalizeEps rs).length = (rs.filter (fun r => r.reportedEPS.isSome)).length := by
  refine ⟨List.perm_insertionSort epsRowLe _, ?_, ?_, ?_⟩
  · intro row hrow
    have hmem : row ∈ rs.filterMap toEpsRow := (List.mem_insertionSort epsRowLe).1 hrow
    rcases List.mem_filterMap.1 hmem with ⟨src, hsrc, htr⟩
    rcases Option.map_eq_some'.1 htr with ⟨v, hv, hfv⟩
    exact ⟨src, hsrc, by rw [hv, ← hfv], by rw [← hfv]⟩
  · intro src hsrc v hv
    refine ⟨⟨src.fiscalDateEnding.year, src.fiscalDateEnding, v⟩, ?_, rfl, rfl⟩
    exact (List.mem_insertionSort epsRowLe).2
      (List.mem_filterMap.2 ⟨src, hsrc, by simp [toEpsRow, hv]⟩)
  · rw [normalizeEps, List.length_insertionSort]
    exact length_filterMap_toEpsRow rs

/-- C5 counterexample: two numeric records of the same fiscal year both
survive normalization, so the output has a duplicated year. -/
theorem normalizeEps_duplicate_year_cex :
    ¬ ((normalizeEps [⟨⟨2020, 31⟩, some 2⟩, ⟨⟨2020, 59⟩, some 3⟩]).map
        (fun r => r.year)).Nodup ∧
    (normalizeEps [⟨⟨2020, 31⟩, some 2⟩, ⟨⟨2020, 59⟩, some 3⟩]).length = 2 := by
  constructor
  · intro hnd
    have : ((List.insertionSort epsRowLe
        [⟨2020, ⟨2020, 31⟩, (2 : ℚ)⟩, ⟨2020, ⟨2020, 59⟩, (3 : ℚ)⟩]).map
          (fun r => r.year)).Nodup := hnd
    rw [show List.insertionSort epsRowLe
        [(⟨2020, ⟨2020, 31⟩, (2 : ℚ)⟩ : EpsRow), ⟨2020, ⟨2020, 59⟩, (3 : ℚ)⟩]
        = [⟨2020, ⟨2020, 31⟩, (2 : ℚ)⟩, ⟨2020, ⟨2020, 59⟩, (3 : ℚ)⟩] from rfl] at this
    simp at this
  · rfl

/-- C5 amended: the normalized EPS series is sorted nondecreasing by year,
and when multiple records map to the same year every one of them survives
(year multiplicities are preserved; there is no per-year deduplication). -/
theorem normalizeEps_sorted_all_kept (rs : List EarningsRecord) :
    List.Sorted (· ≤ ·) ((normalizeEps rs).map (fun r => r.year)) ∧
    ∀ y, ((normalizeEps rs).map (fun r => r.year)).count y
        = ((rs.filterMap toEpsRow).map (fun r => r.year)).count y := by
  constructor
  · have hs : List.Sorted epsRowLe (normalizeEps rs) :=
      List.sorted_insertionSort epsRowLe _
    exact List.pairwise_map.2 (hs.imp (fun h => h))
  · intro y
    exact ((List.perm_insertionSort epsRowLe _).map (fun r => r.year)).count_eq y

/-- C6 counterexample: with the year's observations listed latest-first (as
the provider emits them), `groupby(Year).last()` records the close of the
last listed — here the earliest dated — observation (50), not the close of
the latest-dated observation (100). -/
theorem normalizePrices_not_latest_dated_cex :
    normalizePrices [⟨⟨2020, 12⟩, some 100⟩, ⟨⟨2020, 1⟩, some 50⟩]
      = [⟨2020, some 50⟩] ∧
    specLatestDatedClose [⟨⟨2020, 12⟩, some 100⟩, ⟨⟨2020, 1⟩, some 50⟩] 2020
      = some 100 ∧
    some (50 : ℚ) ≠ some (100 : ℚ) := by
  refine ⟨rfl, rfl, ?_⟩
  intro h
  have : (50 : ℚ) = 100 := Option.some.inj h
  norm_num at this

/-- C6 amended: each year appears at most once in the price series, in
ascending order; a year's value is the close of the last observation listed
for that year in payload order (last non-null), and any recorded value does
come from an actual observation of that year. -/
theorem normalizePrices_one_row_per_year (obs : List PriceObs) :
    ((normalizePrices obs).map (fun r => r.year)).Nodup ∧
    List.Sorted (· ≤ ·) ((normalizePrices obs).map (fun r => r.year)) ∧
    (∀ row ∈ normalizePrices obs, row.adjustedClose = lastClose obs row.year) ∧
    (∀ row ∈ normalizePrices obs, ∀ v, row.adjustedClose = some v →
        ∃ ob ∈ obs, ob.date.year = row.year ∧ ob.adjustedClose = some v) := by
  have hyears : (normalizePrices obs).map (fun r => r.year) = priceYears obs := by
    rw [normalizePrices, List.map_map]
    exact List.map_id _
  refine ⟨?_, ?_, ?_, ?_⟩
  · rw [hyears, priceYears]
    exact (List.perm_insertionSort _ _).nodup_iff.2 (List.nodup_dedup _)
  · rw [hyears, priceYears]
    exact List.sorted_insertionSort _ _
  · intro row hrow
    rcases List.mem_map.1 hrow with ⟨y, _, rfl⟩
    rfl
  · intro row hrow v hv
    rcases List.mem_map.1 hrow with ⟨y, _, rfl⟩
    have hlast : ((obs.filter (fun o => o.date.year = y)).filterMap
        (fun o => o.adjustedClose)).getLast? = some v := hv
    have hmem := List.mem_of_getLast?_eq_some hlast
    rcases List.mem_filterMap.1 hmem with ⟨ob, hob, hclose⟩
    rcases List.mem_filter.1 hob with ⟨hob1, hob2⟩
    exact ⟨ob, hob1, of_decide_eq_true hob2, hclose⟩

/-- Helper: with one price row per year, the rows matching a given year
number 1 when the year is present and 0 otherwise. -/
theorem filter_year_length (price : List PriceRow) (y : Nat)
    (hnd : (price.map (fun p => p.year)).Nodup) :
    (price.filter (fun p => p.year = y)).length
      = if y ∈ price.map (fun p => p.year) then 1 else 0 := by
  induction price with
  | nil => simp
  | cons p ps ih =>
    rw [List.map_cons, List.nodup_cons] at hnd
    rcases hnd with ⟨hp, hps⟩
    by_cases hpy : p.year = y
    · subst hpy
      rw [List.filter_cons_of_pos (by simp)]
      have hzero : ps.filter (fun q => q.year = p.year) = [] := by
        rw [List.filter_eq_nil_iff]
        intro q hq hq2
        exact hp (List.mem_map.2 ⟨q, hq, (of_decide_eq_true hq2).symm ▸ rfl⟩)
      simp [hzero]
    · rw [List.filter_cons_of_neg (by simp [hpy])]
      rw [ih hps]
      have hne : ¬ y = p.year := fun h => hpy h.symm
      simp [hne]

/-- Helper: every joined row takes its year from the EPS side. -/
theorem year_mem_of_mem_innerMerge (eps : List EpsRow) (price : List PriceRow) :
    ∀ m ∈ innerMerge eps price, m.year ∈ eps.map (fun r => r.year) := by
  intro m hm
  rcases List.mem_flatMap.1 hm with ⟨e, he, hme⟩
  rcases List.mem_map.1 hme with ⟨p, _, rfl⟩
  exact List.mem_map.2 ⟨e, he, rfl⟩

/-- Helper: a list with at most one element is sorted. -/
theorem sorted_of_length_le_one {α : Type} {r : α → α → Prop} :
    ∀ {l : List α}, l.length ≤ 1 → List.Sorted r l
  | [], _ => List.sorted_nil
  | [_], _ => List.sorted_singleton _
  | _ :: _ :: _, h => by simp at h

/-- Helper: the inner merge has exactly one row per EPS row whose year also
occurs on the (year-unique) price side. -/
theorem innerMerge_length (eps : List EpsRow) (price : List PriceRow)
    (hnd : (price.map (fun p => p.year)).Nodup) :
    (innerMerge eps price).length
      = ((eps.map (fun r => r.year)).filter
          (fun y => y ∈ price.map (fun p => p.year))).length := by
  induction eps with
  | nil => rfl
  | cons e es ih =>
    have hsplit : innerMerge (e :: es) price
        = (price.filter (fun p => p.year = e.year)).map (mergeRow e)
          ++ innerMerge es price := by
      simp [innerMerge]
    rw [hsplit, List.length_append, List.length_map,
      filter_year_length price e.year hnd, List.map_cons, List.filter_cons, ih]
    by_cases hm : e.year ∈ price.map (fun p => p.year) <;> simp [hm, Nat.add_comm]

/-- Helper: with EPS rows strictly ascending by year and unique price
years, the joined rows stay strictly ascending by year. -/
theorem innerMerge_sorted (eps : List EpsRow) (price : List PriceRow)
    (heps : List.Sorted (· < ·) (eps.map (fun r => r.year)))
    (hnd : (price.map (fun p => p.year)).Nodup) :
    List.Sorted (· < ·) ((innerMerge eps price).map (fun r => r.year)) := by
  induction eps with
  | nil => simp [innerMerge]
  | cons e es ih =>
    rw [List.map_cons, List.sorted_cons] at heps
    rcases heps with ⟨hlt, hes⟩
    have hsplit : innerMerge (e :: es) price
        = (price.filter (fun p => p.year = e.year)).map (mergeRow e)
          ++ innerMerge es price := by
      simp [innerMerge]
    rw [hsplit, List.map_append]
    refine List.pairwise_append.2 ⟨?_, ih hes, ?_⟩
    · apply sorted_of_length_le_one
      rw [List.length_map, List.length_map, filter_year_length price e.year hnd]
      split <;> omega
    · intro a ha b hb
      rcases List.mem_map.1 ha with ⟨m, hm, rfl⟩
      rcases List.mem_map.1 hm with ⟨p, _, rfl⟩
      rcases List.mem_map.1 hb with ⟨m2, hm2, rfl⟩
      have : m2.year ∈ es.map (fun r => r.year) :=
        year_mem_of_mem_innerMerge es price m2 hm2
      exact hlt _ this

/-- C1: on normalized inputs (EPS rows strictly ascending by year, price
rows with unique years) and a scalar P/E, the fair-value output has exactly
one row per year common to both series, every row satisfies
fair_value = reportedEPS * scalar P/E, and rows stay in ascending year
order. -/
theorem fair_value_calculator_correct (eps : List EpsRow) (price : List PriceRow)
    (pe : ℚ)
    (heps : List.Sorted (· < ·) (eps.map (fun r => r.year)))
    (hnd : (price.map (fun p => p.year)).Nodup) :
    (addFairValue (innerMerge eps price) pe).length
      = ((eps.map (fun r => r.year)).filter
          (fun y => y ∈ price.map (fun p => p.year))).length ∧
    (∀ row ∈ addFairValue (innerMerge eps price) pe,
        row.fair_value = row.toMergedRow.reportedEPS * pe) ∧
    List.Sorted (· < ·) ((addFairValue (innerMerge eps price) pe).map
        (fun r => r.toMergedRow.year)) := by
  refine ⟨?_, ?_, ?_⟩
  · rw [addFairValue, List.length_map]
    exact innerMerge_length eps price hnd
  · intro row hrow
    rcases List.mem_map.1 hrow with ⟨r, _, rfl⟩
    rfl
  · have hmap : (addFairValue (innerMerge eps price) pe).map
        (fun r => r.toMergedRow.year)
        = (innerMerge eps price).map (fun r => r.year) := by
      rw [addFairValue, List.map_map]
      rfl
    rw [hmap]
    exact innerMerge_sorted eps price heps hnd

/-- Witness for C1: two EPS years 2019 and 2020 joined against price years
2019 and 2021 give the single common year 2019. -/
theorem fair_value_calculator_correct_witness :
    List.Sorted (· < ·)
      (([⟨2019, ⟨2019, 300⟩, 2⟩, ⟨2020, ⟨2020, 300⟩, 3⟩] : List EpsRow).map
        (fun r => r.year)) ∧
    (([⟨2019, some 30⟩, ⟨2021, some 10⟩] : List PriceRow).map
        (fun p => p.year)).Nodup ∧
    ((addFairValue (innerMerge [⟨2019, ⟨2019, 300⟩, 2⟩, ⟨2020, ⟨2020, 300⟩, 3⟩]
        [⟨2019, some 30⟩, ⟨2021, some 10⟩]) 15).length
      = ((([⟨2019, ⟨2019, 300⟩, 2⟩, ⟨2020, ⟨2020, 300⟩, 3⟩] : List EpsRow).map
          (fun r => r.year)).filter
          (fun y => y ∈ ([⟨2019, some 30⟩, ⟨2021, some 10⟩] : List PriceRow).map
            (fun p => p.year))).length ∧
     (∀ row ∈ addFairValue (innerMerge [⟨2019, ⟨2019, 300⟩, 2⟩, ⟨2020, ⟨2020, 300⟩, 3⟩]
          [⟨2019, some 30⟩, ⟨2021, some 10⟩]) 15,
        row.fair_value = row.toMergedRow.reportedEPS * 15) ∧
     List.Sorted (· < ·)
       ((addFairValue (innerMerge [⟨2019, ⟨2019, 300⟩, 2⟩, ⟨2020, ⟨2020, 300⟩, 3⟩]
          [⟨2019, some 30⟩, ⟨2021, some 10⟩]) 15).map
         (fun r => r.toMergedRow.year))) :=
  ⟨by decide, by decide,
   fair_value_calculator_correct
     [⟨2019, ⟨2019, 300⟩, 2⟩, ⟨2020, ⟨2020, 300⟩, 3⟩]
     [⟨2019, some 30⟩, ⟨2021, some 10⟩] 15 (by decide) (by decide)⟩

end StockAnalyst
